import Mathlib

/-!
# Verification of the continuous-comments documentation engine

This file shallowly embeds the cross-language comment engine of
`action-continuous-comments`: the per-language adapters
(`src/genaisrc/src/go.mts`, `csharp.mts`, `python.mts`, `ruby.mts` and the
C adapter), their ast-grep matcher rules, the comment-span walkers, the
comment formatters, and the edit-budget orchestration loop described by the
specification.

Strings are modelled over `List Char` with structurally recursive
functions so that every definition evaluates inside the kernel; the
functions below model the semantics of the JavaScript string built-ins
used by the source (`trim`, `split`, `startsWith`, ...).
-/

/-- Model of JS `String.prototype.startsWith`. -/
def jsStartsWith (s pre : String) : Bool :=
  pre.data.isPrefixOf s.data

/-- Model of JS `String.prototype.endsWith`. -/
def jsEndsWith (s suf : String) : Bool :=
  suf.data.isSuffixOf s.data

/-- Model of JS `String.prototype.trim` (ASCII whitespace). -/
def jsTrim (s : String) : String :=
  String.mk (((s.data.dropWhile Char.isWhitespace).reverse.dropWhile Char.isWhitespace).reverse)

/-- Model of JS `String.prototype.trimStart`. -/
def jsTrimStart (s : String) : String :=
  String.mk (s.data.dropWhile Char.isWhitespace)

/-- Split a character list at every newline character. -/
def splitNL : List Char → List (List Char)
  | [] => [[]]
  | c :: cs =>
    if c = '\n' then [] :: splitNL cs
    else
      match splitNL cs with
      | chunk :: rest => (c :: chunk) :: rest
      | [] => [[c]]

/-- The lines of a string, split at `'\n'` (JS `split("\n")`). -/
def splitLinesLF (s : String) : List String :=
  (splitNL s.data).map String.mk

/-- Drop one trailing carriage return from every piece except the last;
together with `splitLinesLF` this models JS `split(/\r?\n/g)`. -/
def stripTrailingCRs : List (List Char) → List (List Char)
  | [] => []
  | [x] => [x]
  | x :: xs =>
    (if x.getLast? = some '\r' then x.dropLast else x) :: stripTrailingCRs xs

/-- Model of JS `split(/\r?\n/g)`: split at `\n`, swallowing a preceding `\r`. -/
def jsSplitRN (s : String) : List String :=
  (stripTrailingCRs (splitNL s.data)).map String.mk

/-- Model of JS `String.prototype.includes`: scan for the pattern at every
position. -/
def jsIncludesAux (pat : List Char) : List Char → Bool
  | [] => pat.isPrefixOf []
  | c :: rest => pat.isPrefixOf (c :: rest) || jsIncludesAux pat rest

/-- Model of JS `String.prototype.includes`. -/
def jsIncludes (s pat : String) : Bool :=
  jsIncludesAux pat.data s.data

/-- Fuel-driven splitting of a character list at a (multi-character) literal
separator; the fuel is an upper bound on the number of characters consumed,
so `length + 1` always suffices. Models JS `split` with a literal pattern. -/
def splitSubAux (sep : List Char) : Nat → List Char → List Char → List String
  | 0, l, acc => [String.mk (acc.reverse ++ l)]
  | fuel + 1, l, acc =>
    if sep ≠ [] ∧ sep.isPrefixOf l then
      String.mk acc.reverse :: splitSubAux sep fuel (l.drop sep.length) []
    else
      match l with
      | [] => [String.mk acc.reverse]
      | c :: rest => splitSubAux sep fuel rest (c :: acc)

/-- Split a string at every occurrence of the literal separator `sep`. -/
def splitSub (sep s : String) : List String :=
  splitSubAux sep.data (s.data.length + 1) s.data []

/-- Model of the Ruby adapter's `docs.split(/\\r?\\n/g)`: the doubled
backslashes make the JS regex match the literal texts `\r\n` and `\\n`
(backslash characters, not line breaks), so real newlines are never split. -/
def rubySplitEsc (s : String) : List String :=
  (splitSub "\\r\\n" s).flatMap (fun piece => splitSub "\\\\n" piece)

/-- Modelled from the spec: genaiscript's `parsers.unfence` (an external
library helper, §4.4 "strip any enclosing fenced markers") — if the trimmed
text is wrapped in triple-backtick fence lines, the fence lines are removed,
otherwise the text is returned unchanged. The second argument is the fence
marker hint passed by the adapters; it does not affect this model. -/
def unfence (text _marker : String) : String :=
  let t := jsTrim text
  if jsStartsWith t "```" && jsEndsWith t "```" && 6 ≤ t.data.length then
    String.intercalate "\n" (((splitLinesLF t).drop 1).dropLast)
  else text

/-- The abstract entity kinds of `langops.mts` (`EntityKind`). -/
inductive EntityKind where
  | module
  | type
  | function
  | property
  | variable
deriving DecidableEq, BEq, Repr

namespace Go

/-- Model of the test `/^\/\//.test(docs.trim())` in `go.mts`. -/
def canonicalTest (docs : String) : Bool :=
  jsStartsWith (jsTrim docs) "//"

/-- Translated from `src/genaisrc/src/go.mts` `Go.getCommentText`. -/
def getCommentText (docs : String) : String :=
  let docs := unfence docs "/"
  if canonicalTest docs then docs
  else
    let lines := ((jsSplitRN docs).map jsTrim).filter (fun line => !(line == ""))
    String.intercalate "\n" (lines.map (fun line => "// " ++ line))

end Go

namespace CSharp

/-- Translated from `src/genaisrc/src/csharp.mts` `CSharp.getCommentText`:
the text is always re-wrapped (`/// ${docs.split(/\r?\n/g).map(trim).join("/// ")}`);
there is no already-canonical check. -/
def getCommentText (docs : String) : String :=
  let docs := unfence docs "*"
  "/// " ++ String.intercalate "/// " ((jsSplitRN docs).map jsTrim)

end CSharp

namespace Python

/-- Model of the test `/^\s*""".*.*"""$/s.test(docs)` in `python.mts`: after
leading whitespace the text starts with `\"\"\"`, ends with `\"\"\"`, and is
long enough that the two delimiters do not overlap. -/
def canonicalTest (docs : String) : Bool :=
  jsStartsWith (jsTrimStart docs) "\"\"\"" && jsEndsWith docs "\"\"\"" &&
    6 ≤ (jsTrimStart docs).data.length

/-- Translated from `src/genaisrc/src/python.mts` `Python.getCommentText`. -/
def getCommentText (docs : String) : String :=
  let docs := unfence docs "\""
  if canonicalTest docs then docs
  else
    "\"\"\"" ++ String.intercalate "\n" (jsSplitRN docs) ++
      (if jsIncludes docs "\n" then "\n" else "") ++ "\"\"\""

end Python

namespace Ruby

/-- Model of the test `/^(\s*#.*\n?)+$/m.test(docs.trim())` in `ruby.mts`:
with the `m` flag the regex finds a match exactly when some line begins,
after optional whitespace, with `#`. -/
def canonicalTest (t : String) : Bool :=
  (splitLinesLF t).any (fun line => jsStartsWith (jsTrimStart line) "#")

/-- Translated from `src/genaisrc/src/ruby.mts` `Ruby.getCommentText`.
Note the source splits with `/\\r?\\n/g` (literal backslash text, not line
breaks) and joins with the two-character string `"\\n"`. -/
def getCommentText (docs : String) : String :=
  let docs := unfence docs "#"
  if canonicalTest (jsTrim docs) then docs
  else
    let lines := ((rubySplitEsc docs).map jsTrim).filter
      (fun line => !(line == "") || jsIncludes docs "\\n")
    if lines == [] then "# TODO: Add documentation"
    else
      String.intercalate "\\n" (lines.map (fun line =>
        if line == "" then "#"
        else if jsStartsWith line "#" then line
        else "# " ++ line))

end Ruby

namespace CLang

/-- Model of the test `/^\/\*\*.*\*\/$/s.test(docs.trim())` in the C adapter. -/
def canonicalTest (t : String) : Bool :=
  jsStartsWith t "/**" && jsEndsWith t "*/" && 5 ≤ t.data.length

/-- Translated from the C adapter (`src/unnamed/part_006`) `C.getCommentText`. -/
def getCommentText (docs : String) : String :=
  let docs := unfence docs "*"
  if canonicalTest (jsTrim docs) then docs
  else
    let lines := ((jsSplitRN docs).map jsTrim).filter (fun line => !(line == ""))
    match lines with
    | [line] =>
      if jsStartsWith line "@" then "/** " ++ line ++ " */"
      else "/** @brief " ++ line ++ " */"
    | _ =>
      let formatted := lines.enum.map (fun p =>
        if p.1 = 0 && !(jsStartsWith p.2 "@") then " * @brief " ++ p.2
        else if jsStartsWith p.2 "@param" || jsStartsWith p.2 "@return" ||
            jsStartsWith p.2 "@" then " * " ++ p.2
        else if !(p.2 == "") then " * " ++ p.2
        else " *")
      "/**\n" ++ String.intercalate "\n" formatted ++ "\n */"

end CLang

/-!
A concrete syntax-tree node as exposed by the external Syntax Tree
Provider (§6): a kind, the node's own text, and the ordered children.
`SgNode`/`SgNodes` are mutually inductive so that all tree functions are
structurally recursive and kernel-computable.
-/

mutual
/-- A syntax-tree node: kind, own text, ordered children. -/
inductive SgNode where
  | node (kind : String) (text : String) (children : SgNodes)
/-- A list of sibling syntax-tree nodes. -/
inductive SgNodes where
  | nil
  | cons (n : SgNode) (ns : SgNodes)
end

/-- The kind of a node. -/
def SgNode.kind : SgNode → String
  | .node k _ _ => k

/-- The text of a node. -/
def SgNode.text : SgNode → String
  | .node _ t _ => t

/-- The children of a node. -/
def SgNode.children : SgNode → SgNodes
  | .node _ _ cs => cs

/-- Indexing into a child list. -/
def SgNodes.get? : SgNodes → Nat → Option SgNode
  | .nil, _ => none
  | .cons n _, 0 => some n
  | .cons _ ns, i + 1 => ns.get? i

/-- Number of children in a child list. -/
def SgNodes.length : SgNodes → Nat
  | .nil => 0
  | .cons _ ns => ns.length + 1

/-- Build a child list from an ordinary list. -/
def SgNodes.ofList : List SgNode → SgNodes
  | [] => .nil
  | n :: ns => .cons n (SgNodes.ofList ns)

/-- Convenience constructor for concrete example trees. -/
def mkNode (kind text : String) (children : List SgNode) : SgNode :=
  .node kind text (SgNodes.ofList children)

/-- Number of children of a node. -/
def SgNode.childCount (n : SgNode) : Nat :=
  n.children.length

/-- The node reached from `t` by following a path of child indices; a node
reference is represented as a root together with such a path. -/
def nodeAt? (t : SgNode) : List Nat → Option SgNode
  | [] => some t
  | i :: p =>
    match t.children.get? i with
    | some c => nodeAt? c p
    | none => none

/-- The path of the immediate previous sibling, when one exists. -/
def prevPath? (p : List Nat) : Option (List Nat) :=
  match p.getLast? with
  | some (i + 1) => some (p.dropLast ++ [i])
  | _ => none

/-!
An ast-grep rule object as built by the adapters: a rule object is a
list of fields (`kind`, `regex`, `nthChild`, `stopBy`, `any`, `all`, `not`,
`has`, `inside`, `follows`), all of which must hold; the JS spread-merges
`{...a, ...b}` in the adapters combine objects with disjoint fields and are
translated as field-list concatenation.
-/

mutual
/-- One field of an ast-grep rule object. -/
inductive SgField where
  | kind (k : String)
  | regex (pat : String)
  | nthChild (n : Nat)
  | stopBy (s : String)
  | any (rs : SgRules)
  | all (rs : SgRules)
  | not (r : SgRule)
  | has (r : SgRule)
  | inside (r : SgRule)
  | follows (r : SgRule)
/-- An ast-grep rule object: the list of its fields, all of which must hold. -/
inductive SgRule where
  | obj (fields : SgFields)
/-- A list of rule-object fields. -/
inductive SgFields where
  | nil
  | cons (f : SgField) (fs : SgFields)
/-- A list of rule objects (the alternatives of `any` / conjuncts of `all`). -/
inductive SgRules where
  | nil
  | cons (r : SgRule) (rs : SgRules)
end

/-- Build a field list from an ordinary list. -/
def SgFields.ofList : List SgField → SgFields
  | [] => .nil
  | f :: fs => .cons f (SgFields.ofList fs)

/-- Build a rule list from an ordinary list. -/
def SgRules.ofList : List SgRule → SgRules
  | [] => .nil
  | r :: rs => .cons r (SgRules.ofList rs)

/-- A rule object given by a list of fields. -/
def SgRule.objL (fs : List SgField) : SgRule :=
  .obj (SgFields.ofList fs)

/-- An `any` field given by a list of alternatives. -/
def SgField.anyL (rs : List SgRule) : SgField :=
  .any (SgRules.ofList rs)

/-- An `all` field given by a list of conjuncts. -/
def SgField.allL (rs : List SgRule) : SgField :=
  .all (SgRules.ofList rs)

/-- Modelled from the spec: §4.1 `Regex` — JS regex testing restricted to
the anchored patterns the adapters build: `"^[A-Z]"` tests a capital first
letter, any other caret pattern tests the literal prefix after the caret,
and an unanchored pattern tests containment. -/
def regexTest (pat s : String) : Bool :=
  if pat == "^[A-Z]" then
    match s.data with
    | c :: _ => c.isUpper
    | [] => false
  else if jsStartsWith pat "^" then jsStartsWith s (pat.drop 1)
  else jsIncludes s pat

/-!
Modelled from the spec: §4.1 Rule Algebra Evaluator —
`evaluate(rule, node) → bool`, pure and short-circuiting on `any`/`all`.
Every relational rule the adapters build uses the direct-neighbor adjacency
(`stopBy: "neighbor"`, ast-grep's default, written explicitly on the
`follows` rules): `inside` inspects the immediate parent, `follows` the
immediate previous sibling, `has` the direct children; `nthChild n` holds
of the n-th child (1-based); `regex` applies to the node's own text. A rule
object holds when all its fields hold.
-/

mutual
/-- Modelled from the spec: evaluate a rule object at the node `p` of `root`. -/
def evalRule (root : SgNode) (p : List Nat) : SgRule → Bool
  | .obj fs => evalFields root p fs
/-- Modelled from the spec: evaluate the conjunction of a rule object's fields. -/
def evalFields (root : SgNode) (p : List Nat) : SgFields → Bool
  | .nil => true
  | .cons f fs => evalField root p f && evalFields root p fs
/-- Modelled from the spec: evaluate one rule field. -/
def evalField (root : SgNode) (p : List Nat) : SgField → Bool
  | .kind k =>
    match nodeAt? root p with
    | some n => n.kind == k
    | none => false
  | .regex pat =>
    match nodeAt? root p with
    | some n => regexTest pat n.text
    | none => false
  | .nthChild n =>
    match p.getLast? with
    | some i => i + 1 == n
    | none => false
  | .stopBy _ => true
  | .any rs => evalAny root p rs
  | .all rs => evalAll root p rs
  | .not r => !evalRule root p r
  | .has r =>
    match nodeAt? root p with
    | some n => (List.range n.childCount).any (fun i => evalRule root (p ++ [i]) r)
    | none => false
  | .inside r =>
    if p = [] then false else evalRule root p.dropLast r
  | .follows r =>
    match prevPath? p with
    | some q => evalRule root q r
    | none => false
/-- Modelled from the spec: disjunction over an `any` list. -/
def evalAny (root : SgNode) (p : List Nat) : SgRules → Bool
  | .nil => false
  | .cons r rs => evalRule root p r || evalAny root p rs
/-- Modelled from the spec: conjunction over an `all` list. -/
def evalAll (root : SgNode) (p : List Nat) : SgRules → Bool
  | .nil => true
  | .cons r rs => evalRule root p r && evalAll root p rs
end



/-!
The per-language matcher builders (`getCommentableNodesMatcher`) and
comment-span walkers (`getCommentNodes`), translated adapter by adapter.
A `node.prev()` walk is represented by the index of the declaration among
its siblings: `collectPrevUnshift` mirrors the `unshift` loops (Go, Ruby,
C — source order preserved), `collectPrevPush` the `push` loop (C#).
-/

/-- Walk the previous siblings of the node at index `i` under parent path
`q`, prepending each accepted sibling to `acc` (`commentNodes.unshift`). -/
def collectPrevUnshift (root : SgNode) (q : List Nat) (ok : SgNode → Bool) :
    Nat → List (List Nat) → List (List Nat)
  | 0, acc => acc
  | i + 1, acc =>
    match nodeAt? root (q ++ [i]) with
    | some n =>
      if ok n then collectPrevUnshift root q ok i ((q ++ [i]) :: acc) else acc
    | none => acc

/-- Walk the previous siblings of the node at index `i` under parent path
`q`, appending each accepted sibling (`commentNodes.push`): nearest first. -/
def collectPrevPush (root : SgNode) (q : List Nat) (ok : SgNode → Bool) :
    Nat → List (List Nat)
  | 0 => []
  | i + 1 =>
    match nodeAt? root (q ++ [i]) with
    | some n =>
      if ok n then (q ++ [i]) :: collectPrevPush root q ok i else []
    | none => []

namespace Go

/-- The Go `getCommentNodes` loop condition: a `comment` node whose text
starts with `//`. -/
def commentOk (n : SgNode) : Bool :=
  n.kind == "comment" && jsStartsWith n.text "//"

/-- Translated from `go.mts` `Go.getCommentNodes`: collect the contiguous
run of preceding `//` comments in source order; `null` when none. -/
def getCommentNodes (root : SgNode) (p : List Nat) : Option (List (List Nat)) :=
  match p.getLast? with
  | none => none
  | some i =>
    let run := collectPrevUnshift root p.dropLast commentOk i []
    if run.isEmpty then none else some run

/-- Translated from `go.mts` `getCommentableNodesMatcher`: the filtered
`declKindsRaw.any` list of declaration-kind alternatives. -/
def declKindsRawAny (entityKinds : List EntityKind) : List SgRule :=
  [if entityKinds.contains .function then
      some (SgRule.objL [.kind "function_declaration"]) else none,
   if entityKinds.contains .function then
      some (SgRule.objL [.kind "method_declaration"]) else none,
   if entityKinds.contains .type then
      some (SgRule.objL [.kind "type_declaration"]) else none,
   if entityKinds.contains .variable then
      some (SgRule.objL [.kind "var_declaration"]) else none,
   if entityKinds.contains .variable then
      some (SgRule.objL [.kind "const_declaration"]) else none].filterMap id

/-- Translated from `go.mts`: the `withDocComment` rule object
(`follows {kind: comment, regex: "^//", stopBy: neighbor}`). -/
def withDocComment : List SgField :=
  [.follows (SgRule.objL [.kind "comment", .regex "^//", .stopBy "neighbor"])]

/-- Translated from `go.mts` `Go.getCommentableNodesMatcher`: declaration
kinds (wrapped in a capitalized-`identifier` `has`-filter when
`exportsOnly`), the `inside source_file` scope rule, and the doc-comment
filter, spread-merged into one rule object. -/
def getCommentableNodesMatcher (entityKinds : List EntityKind)
    (withComments exportsOnly : Bool) : SgRule :=
  let declKinds : List SgField :=
    if exportsOnly then
      [SgField.anyL [SgRule.objL [SgField.anyL (declKindsRawAny entityKinds),
        .has (SgRule.objL [.kind "identifier", .regex "^[A-Z]"])]]]
    else
      [SgField.anyL [SgRule.objL [SgField.anyL (declKindsRawAny entityKinds)]]]
  let insideR : List SgField := [.inside (SgRule.objL [.kind "source_file"])]
  let docsRule : List SgField :=
    if withComments then withDocComment else [.not (SgRule.objL withDocComment)]
  SgRule.objL (declKinds ++ insideR ++ docsRule)

end Go

namespace CSharp

/-- The C# `getCommentNodes` loop condition: any `comment` node. -/
def commentOk (n : SgNode) : Bool :=
  n.kind == "comment"

/-- Translated from `csharp.mts` `CSharp.getCommentNodes`: collect the
contiguous run of preceding comments with `push`, so the returned array
runs nearest-comment-first; an empty array when none. -/
def getCommentNodes (root : SgNode) (p : List Nat) : List (List Nat) :=
  match p.getLast? with
  | none => []
  | some i => collectPrevPush root p.dropLast commentOk i

/-- Translated from `csharp.mts` `getCommentableNodesMatcher`: the filtered
`declKindsRaw.any` list of declaration-kind alternatives. -/
def declKindsRawAny (entityKinds : List EntityKind) : List SgRule :=
  [if entityKinds.contains .module then
      some (SgRule.objL [.kind "namespace_declaration"]) else none,
   if entityKinds.contains .type then
      some (SgRule.objL [.kind "delegate_declaration"]) else none,
   if entityKinds.contains .type then
      some (SgRule.objL [.kind "struct_declaration"]) else none,
   if entityKinds.contains .type then
      some (SgRule.objL [.kind "class_declaration"]) else none,
   if entityKinds.contains .type then
      some (SgRule.objL [.kind "interface_declaration"]) else none,
   if entityKinds.contains .type then
      some (SgRule.objL [.kind "enum_declaration"]) else none,
   if entityKinds.contains .property then
      some (SgRule.objL [.kind "field_declaration"]) else none,
   if entityKinds.contains .property then
      some (SgRule.objL [.kind "event_field_declaration"]) else none,
   if entityKinds.contains .property then
      some (SgRule.objL [.kind "property_declaration"]) else none,
   if entityKinds.contains .property then
      some (SgRule.objL [.kind "indexer_declaration"]) else none,
   if entityKinds.contains .property then
      some (SgRule.objL [.kind "enum_member_declaration"]) else none,
   if entityKinds.contains .function then
      some (SgRule.objL [.kind "method_declaration"]) else none,
   if entityKinds.contains .function then
      some (SgRule.objL [.kind "constructor_declaration"]) else none,
   if entityKinds.contains .function then
      some (SgRule.objL [.kind "operator_declaration"]) else none].filterMap id

/-- Translated from `csharp.mts`: the `withDocComment` rule object
(`follows {kind: comment, stopBy: neighbor}` — no text filter). -/
def withDocComment : List SgField :=
  [.follows (SgRule.objL [.kind "comment", .stopBy "neighbor"])]

/-- Translated from `csharp.mts` `CSharp.getCommentableNodesMatcher`: the
`exportsOnly` parameter is accepted but never used (the export filter is
commented out in the source), and the scope rule is `inside {all: []}`. -/
def getCommentableNodesMatcher (entityKinds : List EntityKind)
    (withComments exportsOnly : Bool) : SgRule :=
  let declKinds : List SgField :=
    [SgField.anyL [SgRule.objL [SgField.anyL (declKindsRawAny entityKinds)]]]
  let insideR : List SgField := [.inside (SgRule.objL [SgField.allL []])]
  let docsRule : List SgField :=
    if withComments then withDocComment else [.not (SgRule.objL withDocComment)]
  SgRule.objL (declKinds ++ insideR ++ docsRule)

end CSharp

mutual
/-- Translated from the ast-grep `node.find({rule: {kind: k}})` chain used
by `python.mts`: the first descendant of the node with the given kind, in
pre-order, returned with its path relative to the node. -/
def findNode (k : String) : SgNode → Option (List Nat × SgNode)
  | .node _ _ cs => findNodes k cs 0
/-- Pre-order search over a child list, starting at child index `i`. -/
def findNodes (k : String) : SgNodes → Nat → Option (List Nat × SgNode)
  | .nil, _ => none
  | .cons c cs, i =>
    if c.kind == k then some ([i], c)
    else
      match findNode k c with
      | some (r, n) => some (i :: r, n)
      | none => findNodes k cs (i + 1)
end

namespace Python

/-- Translated from `python.mts` `Python.getCommentNodes`: chain
`decl.find({kind: block})?.find({kind: expression_statement})?.find({kind:
string})`; a one-element list holding the docstring's string node, or
`null`. Paths are relative to the declaration node. -/
def getCommentNodes (decl : SgNode) : Option (List (List Nat)) :=
  match findNode "block" decl with
  | none => none
  | some (pb, b) =>
    match findNode "expression_statement" b with
    | none => none
    | some (pe, e) =>
      match findNode "string" e with
      | none => none
      | some (ps, _) => some [pb ++ pe ++ ps]

/-- Translated from `python.mts`: the `withDocstring` rule object —
`has {kind: block, has: {nthChild: 1, kind: expression_statement,
has: {nthChild: 1, kind: string}}}`. -/
def withDocstring : List SgField :=
  [.has (SgRule.objL [.kind "block", .has (SgRule.objL [.nthChild 1,
    .kind "expression_statement",
    .has (SgRule.objL [.nthChild 1, .kind "string"])])])]

/-- Translated from `python.mts` `Python.getCommentableNodesMatcher`: note
the method takes no `exportsOnly` parameter; the scope rule accepts any
`module` or `block` parent. -/
def getCommentableNodesMatcher (entityKinds : List EntityKind)
    (withComments : Bool) : SgRule :=
  let declKinds : List SgField :=
    [SgField.anyL ([
      if entityKinds.contains .function then
        some (SgRule.objL [.kind "function_definition"]) else none,
      if entityKinds.contains .type then
        some (SgRule.objL [.kind "class_definition"]) else none].filterMap id)]
  let insideR : List SgField :=
    [.inside (SgRule.objL [SgField.anyL [SgRule.objL [.kind "module"],
      SgRule.objL [.kind "block"]]])]
  let docsRule : List SgField :=
    if withComments then withDocstring else [.not (SgRule.objL withDocstring)]
  SgRule.objL (declKinds ++ insideR ++ docsRule)

end Python

namespace Ruby

/-- The Ruby `getCommentNodes` loop condition: any `comment` node. -/
def commentOk (n : SgNode) : Bool :=
  n.kind == "comment"

/-- Translated from `ruby.mts` `Ruby.getCommentNodes`: collect the
contiguous run of preceding comments in source order; `null` when none. -/
def getCommentNodes (root : SgNode) (p : List Nat) : Option (List (List Nat)) :=
  match p.getLast? with
  | none => none
  | some i =>
    let run := collectPrevUnshift root p.dropLast commentOk i []
    if run.isEmpty then none else some run

/-- Translated from `ruby.mts`: the `withDocComment` rule object. -/
def withDocComment : List SgField :=
  [.follows (SgRule.objL [.kind "comment", .stopBy "neighbor"])]

/-- Translated from `ruby.mts` `Ruby.getCommentableNodesMatcher`: note the
returned object spreads only `declKinds` and `docsRule` — there is no
`inside` scope rule at all. -/
def getCommentableNodesMatcher (entityKinds : List EntityKind)
    (withComments exportsOnly : Bool) : SgRule :=
  let declKinds : List SgField :=
    [SgField.anyL ([
      if entityKinds.contains .function then
        some (SgRule.objL [.kind "method"]) else none,
      if entityKinds.contains .type then
        some (SgRule.objL [.kind "class"]) else none,
      if entityKinds.contains .module then
        some (SgRule.objL [.kind "module"]) else none].filterMap id)]
  let docsRule : List SgField :=
    if withComments then withDocComment else [.not (SgRule.objL withDocComment)]
  SgRule.objL (declKinds ++ docsRule)

end Ruby

namespace CLang

/-- Translated from the C adapter: the filtered `declKindsRaw.any` list;
the `variable` alternative carries its own nested
`inside {kind: translation_unit}` restriction. -/
def declKindsRawAny (entityKinds : List EntityKind) : List SgRule :=
  [if entityKinds.contains .function then
      some (SgRule.objL [.kind "function_definition"]) else none,
   if entityKinds.contains .type then
      some (SgRule.objL [.kind "type_definition"]) else none,
   if entityKinds.contains .type then
      some (SgRule.objL [.kind "struct_specifier"]) else none,
   if entityKinds.contains .type then
      some (SgRule.objL [.kind "enum_specifier"]) else none,
   if entityKinds.contains .variable then
      some (SgRule.objL [.kind "declaration",
        .inside (SgRule.objL [.kind "translation_unit"])]) else none].filterMap id

/-- Translated from the C adapter: the `withDocComment` rule object. -/
def withDocComment : List SgField :=
  [.follows (SgRule.objL [.kind "comment", .stopBy "neighbor"])]

/-- Translated from the C adapter `C.getCommentableNodesMatcher`: the
`exportsOnly` parameter is accepted but never used ("Ignored for C,
included for interface consistency"). -/
def getCommentableNodesMatcher (entityKinds : List EntityKind)
    (withComments exportsOnly : Bool) : SgRule :=
  let declKinds : List SgField :=
    [SgField.anyL [SgRule.objL [SgField.anyL (declKindsRawAny entityKinds)]]]
  let insideR : List SgField := [.inside (SgRule.objL [.kind "translation_unit"])]
  let docsRule : List SgField :=
    if withComments then withDocComment else [.not (SgRule.objL withDocComment)]
  SgRule.objL (declKinds ++ insideR ++ docsRule)

end CLang

/-- Modelled from the spec: the oracle's possible answers (§6 "text |
\"no-change\" sentinel", §7 OracleFailure) — the orchestrator script itself
is not among the provided sources, only its README and `action.yml`. -/
inductive OracleResponse where
  | noChange
  | text (s : String)
  | failure
deriving DecidableEq, Repr

/-- Modelled from the spec: the `EditRecord` kinds of §3
(`Insert | Update | Skip-NoChange | Skip-Budget | Skip-Error`). -/
inductive EditKind where
  | insert
  | update
  | skipNoChange
  | skipBudget
  | skipError
deriving DecidableEq, Repr

/-- Modelled from the spec: the per-run edit budget of §3
(`{editsUsed, editsMax}`, reset at the start of each run). -/
structure EditBudget where
  editsUsed : Nat
  editsMax : Nat
deriving DecidableEq, Repr

/-- Modelled from the spec: a located declaration candidate, reduced to the
one datum the orchestrator's budget step inspects (whether an existing doc
comment is being updated or a new one inserted). -/
structure Candidate where
  hasExistingDoc : Bool
deriving DecidableEq, Repr

/-- Modelled from the spec: one orchestrator step (§4.5): when the budget is
exhausted the candidate is recorded `Skip-Budget` and the oracle is not
consulted; otherwise a failure is recorded `Skip-Error`, the "no change"
sentinel is recorded `Skip-NoChange` without touching the counter, and a
text response is applied, incrementing `editsUsed`. -/
def orchestratorStep (b : EditBudget) (c : Candidate)
    (oracle : Candidate → OracleResponse) : EditBudget × EditKind :=
  if b.editsMax ≤ b.editsUsed then (b, .skipBudget)
  else
    match oracle c with
    | .failure => (b, .skipError)
    | .noChange => (b, .skipNoChange)
    | .text _ =>
      ({ b with editsUsed := b.editsUsed + 1 },
        if c.hasExistingDoc then .update else .insert)

/-- Modelled from the spec: the orchestrator run walks the candidates in
order, threading the budget and collecting one `EditKind` record per
candidate (§4.5). -/
def orchestratorRun (oracle : Candidate → OracleResponse) :
    List Candidate → EditBudget → EditBudget × List EditKind
  | [], b => (b, [])
  | c :: cs, b =>
    let step := orchestratorStep b c oracle
    let rest := orchestratorRun oracle cs step.1
    (rest.1, step.2 :: rest.2)

/-- Whether a rule-object field is an `inside` scope constraint. -/
def SgField.isInside : SgField → Bool
  | .inside _ => true
  | _ => false

/-- Whether a rule object carries an `inside` field, i.e. any scope
constraint at all. -/
def SgRule.hasInsideField : SgRule → Bool
  | .obj fs => go fs
where
  /-- Scan a field list for an `inside` field. -/
  go : SgFields → Bool
  | .nil => false
  | .cons f fs => f.isInside || go fs

/-!
Concrete example trees, shaped like real tree-sitter parses, used by the
closed counterexample and witness theorems.
-/

/-- The docstring node of the documented Python example function. -/
def pyDocString : SgNode :=
  mkNode "string" "\"\"\"doc\"\"\"" []

/-- The first statement of the documented Python example function's body:
an expression statement wrapping the docstring. -/
def pyDocStmt : SgNode :=
  mkNode "expression_statement" "\"\"\"doc\"\"\"" [pyDocString]

/-- The body of the documented Python example function. -/
def pyDocBody : SgNode :=
  mkNode "block" "" [pyDocStmt, mkNode "pass_statement" "pass" []]

/-- A documented Python function: the first statement of its body is the
docstring expression statement. -/
def pyDocFunction : SgNode :=
  mkNode "function_definition" ""
    [mkNode "identifier" "f" [],
     mkNode "parameters" "()" [],
     pyDocBody]

/-- A Python module holding one documented function. -/
def pyDocModule : SgNode :=
  mkNode "module" "" [pyDocFunction]

/-- A Python module with a function defined inside another function's body. -/
def pyNestedModule : SgNode :=
  mkNode "module" ""
    [mkNode "function_definition" ""
      [mkNode "identifier" "outer" [],
       mkNode "block" ""
         [mkNode "function_definition" ""
            [mkNode "identifier" "inner" [],
             mkNode "block" "" [mkNode "pass_statement" "pass" []]]]]]

/-- A Go source file: an exported function preceded by two `//` comments. -/
def goDocFile : SgNode :=
  mkNode "source_file" ""
    [mkNode "comment" "// Foo does things." [],
     mkNode "comment" "// It returns nothing." [],
     mkNode "function_declaration" ""
       [mkNode "identifier" "Foo" [],
        mkNode "parameter_list" "()" [],
        mkNode "block" "" []]]

/-- A Go source file: one exported, uncommented function declaration. -/
def goExportedFile : SgNode :=
  mkNode "source_file" ""
    [mkNode "function_declaration" ""
      [mkNode "identifier" "Foo" [],
       mkNode "parameter_list" "()" [],
       mkNode "block" "" []]]

/-- A Go source file: one exported, uncommented method declaration — in
tree-sitter-go the method name is a `field_identifier`, not an
`identifier`. -/
def goMethodFile : SgNode :=
  mkNode "source_file" ""
    [mkNode "method_declaration" ""
      [mkNode "parameter_list" "(s T)"
         [mkNode "parameter_declaration" "s T"
            [mkNode "identifier" "s" [], mkNode "type_identifier" "T" []]],
       mkNode "field_identifier" "Foo" [],
       mkNode "parameter_list" "()" [],
       mkNode "block" "" []]]

/-- A C# compilation unit: a class preceded by two comments. -/
def csDocFile : SgNode :=
  mkNode "compilation_unit" ""
    [mkNode "comment" "// first" [],
     mkNode "comment" "// second" [],
     mkNode "class_declaration" "" [mkNode "identifier" "C" []]]

@[simp]
theorem evalFields_ofList (root : SgNode) (p : List Nat) (l : List SgField) :
    evalFields root p (SgFields.ofList l) = l.all (evalField root p) := by
  induction l with
  | nil => rfl
  | cons f fs ih => simp [SgFields.ofList, evalFields, ih]

@[simp]
theorem evalAny_ofList (root : SgNode) (p : List Nat) (l : List SgRule) :
    evalAny root p (SgRules.ofList l) = l.any (evalRule root p) := by
  induction l with
  | nil => rfl
  | cons r rs ih => simp [SgRules.ofList, evalAny, ih]

@[simp]
theorem evalAll_ofList (root : SgNode) (p : List Nat) (l : List SgRule) :
    evalAll root p (SgRules.ofList l) = l.all (evalRule root p) := by
  induction l with
  | nil => rfl
  | cons r rs ih => simp [SgRules.ofList, evalAll, ih]

@[simp]
theorem evalRule_objL (root : SgNode) (p : List Nat) (l : List SgField) :
    evalRule root p (SgRule.objL l) = l.all (evalField root p) := by
  simp [SgRule.objL, evalRule]

/-- The field `editsMax` never changes during a run. -/
theorem orchestratorRun_editsMax (oracle : Candidate → OracleResponse) :
    ∀ (cs : List Candidate) (b : EditBudget),
      (orchestratorRun oracle cs b).1.editsMax = b.editsMax := by
  intro cs
  induction cs with
  | nil => intro b; rfl
  | cons c cs ih =>
    intro b
    simp only [orchestratorRun, ih]
    simp only [orchestratorStep]
    split
    · rfl
    · split <;> rfl

/-- C1: over any run of the orchestrator, if the counter starts within the
budget (it starts at 0 on a fresh run) it never exceeds `editsMax`; and on a
candidate processed with available budget whose oracle answer is the
"no change" sentinel, the step leaves `editsUsed` unchanged and records
`Skip-NoChange`. -/
theorem C1_edits_budget_invariant (oracle : Candidate → OracleResponse) :
    (∀ (cs : List Candidate) (b : EditBudget), b.editsUsed ≤ b.editsMax →
      (orchestratorRun oracle cs b).1.editsUsed ≤ b.editsMax) ∧
    (∀ (b : EditBudget) (c : Candidate), b.editsUsed < b.editsMax →
      oracle c = .noChange →
      orchestratorStep b c oracle = (b, .skipNoChange)) := by
  constructor
  · intro cs
    induction cs with
    | nil => intro b hb; exact hb
    | cons c cs ih =>
      intro b hb
      simp only [orchestratorRun]
      have hmax : (orchestratorStep b c oracle).1.editsMax = b.editsMax := by
        simp only [orchestratorStep]
        split
        · rfl
        · split <;> rfl
      have hused : (orchestratorStep b c oracle).1.editsUsed ≤ b.editsMax := by
        simp only [orchestratorStep]
        split
        · exact hb
        · split
          · exact hb
          · exact hb
          · show b.editsUsed + 1 ≤ b.editsMax
            omega
      have := ih (orchestratorStep b c oracle).1 (by rw [hmax]; exact hused)
      rw [hmax] at this
      exact this
  · intro b c hb hno
    simp only [orchestratorStep, Nat.not_le.mpr hb, if_neg (Nat.not_le.mpr hb), hno]
    simp

/-- Witness for `C1_edits_budget_invariant`: a run of three candidates
against a budget of two with an always-"no change" oracle, and one
no-change step. -/
theorem C1_edits_budget_invariant_witness :
    ((⟨0, 2⟩ : EditBudget).editsUsed ≤ (⟨0, 2⟩ : EditBudget).editsMax ∧
      (orchestratorRun (fun _ => .noChange) [⟨false⟩, ⟨true⟩, ⟨false⟩]
        ⟨0, 2⟩).1.editsUsed ≤ 2) ∧
    ((⟨1, 2⟩ : EditBudget).editsUsed < (⟨1, 2⟩ : EditBudget).editsMax ∧
      orchestratorStep ⟨1, 2⟩ ⟨true⟩ (fun _ => .noChange) =
        (⟨1, 2⟩, .skipNoChange)) :=
  ⟨⟨by decide,
      (C1_edits_budget_invariant (fun _ => .noChange)).1
        [⟨false⟩, ⟨true⟩, ⟨false⟩] ⟨0, 2⟩ (by decide)⟩,
    ⟨by decide,
      (C1_edits_budget_invariant (fun _ => .noChange)).2 ⟨1, 2⟩ ⟨true⟩
        (by decide) rfl⟩⟩

/-- C2 counterexample: the C# adapter's `getCommentText` is not the identity
on text already in C#'s canonical `///` form — it unconditionally re-wraps,
producing a doubled `/// ///` prefix, so `format_CSharp` is not idempotent on
canonical inputs. -/
theorem C2_csharp_canonical_not_fixed_counterexample :
    CSharp.getCommentText "/// Adds two numbers." ≠ "/// Adds two numbers." := by
  decide

/-- C2 (amended): for the Go, Python, Ruby and C adapters, any text that
passes the adapter's own already-canonical check (and carries no markdown
fence) is returned unchanged by `getCommentText`, so the formatter is a
fixed point on canonical inputs for those languages; the C# adapter is the
exception established by the counterexample. -/
theorem C2_format_canonical_fixed_point :
    (∀ c : String, unfence c "/" = c → Go.canonicalTest c = true →
      Go.getCommentText c = c) ∧
    (∀ c : String, unfence c "\"" = c → Python.canonicalTest c = true →
      Python.getCommentText c = c) ∧
    (∀ c : String, unfence c "#" = c → Ruby.canonicalTest (jsTrim c) = true →
      Ruby.getCommentText c = c) ∧
    (∀ c : String, unfence c "*" = c → CLang.canonicalTest (jsTrim c) = true →
      CLang.getCommentText c = c) := by
  refine ⟨fun c h1 h2 => ?_, fun c h1 h2 => ?_, fun c h1 h2 => ?_,
    fun c h1 h2 => ?_⟩ <;>
    simp only [Go.getCommentText, Python.getCommentText, Ruby.getCommentText,
      CLang.getCommentText, h1, h2, if_true]

/-- Witness for `C2_format_canonical_fixed_point` at concrete canonical
comments of each of the four languages. -/
theorem C2_format_canonical_fixed_point_witness :
    (unfence "// hello" "/" = "// hello" ∧ Go.canonicalTest "// hello" = true ∧
      Go.getCommentText "// hello" = "// hello") ∧
    (unfence "\"\"\"doc\"\"\"" "\"" = "\"\"\"doc\"\"\"" ∧
      Python.canonicalTest "\"\"\"doc\"\"\"" = true ∧
      Python.getCommentText "\"\"\"doc\"\"\"" = "\"\"\"doc\"\"\"") ∧
    (unfence "# hi" "#" = "# hi" ∧ Ruby.canonicalTest (jsTrim "# hi") = true ∧
      Ruby.getCommentText "# hi" = "# hi") ∧
    (unfence "/** x */" "*" = "/** x */" ∧
      CLang.canonicalTest (jsTrim "/** x */") = true ∧
      CLang.getCommentText "/** x */" = "/** x */") :=
  ⟨⟨by decide, by decide,
      C2_format_canonical_fixed_point.1 "// hello" (by decide) (by decide)⟩,
    ⟨by decide, by decide,
      C2_format_canonical_fixed_point.2.1 "\"\"\"doc\"\"\"" (by decide) (by decide)⟩,
    ⟨by decide, by decide,
      C2_format_canonical_fixed_point.2.2.1 "# hi" (by decide) (by decide)⟩,
    ⟨by decide, by decide,
      C2_format_canonical_fixed_point.2.2.2 "/** x */" (by decide) (by decide)⟩⟩

/-- C8: evaluation of the three line-comment formatters at the two-line input
`"Adds.\nReturns."`. Go produces one `// `-prefixed line per input line
joined by real newlines, as the claim states; Ruby — whose source splits on
the literal text `\r?\n` instead of real line breaks — leaves the second
line without a `#` prefix, contradicting its own doc comment ("Ensures each
line is prefixed with #"); C# joins the lines with `"/// "` and no newline
at all, putting every line on one single output line. -/
theorem C8_line_comment_format_failing_eval :
    Go.getCommentText "Adds.\nReturns." = "// Adds.\n// Returns." ∧
    Ruby.getCommentText "Adds.\nReturns." = "# Adds.\nReturns." ∧
    CSharp.getCommentText "Adds.\nReturns." = "/// Adds./// Returns." :=
  ⟨by decide, by decide, by decide⟩

/-- C4: for the two adapters of languages with no visibility concept (C and
C#), `getCommentableNodesMatcher` ignores the `exportsOnly` flag entirely:
the rules built with `exportsOnly=true` and `exportsOnly=false` are equal,
hence evaluate identically on every node — in particular the flag can never
empty the candidate set. -/
theorem C4_exportsOnly_noop_c_csharp (entityKinds : List EntityKind)
    (withComments : Bool) :
    CSharp.getCommentableNodesMatcher entityKinds withComments true =
      CSharp.getCommentableNodesMatcher entityKinds withComments false ∧
    CLang.getCommentableNodesMatcher entityKinds withComments true =
      CLang.getCommentableNodesMatcher entityKinds withComments false ∧
    ∀ (root : SgNode) (p : List Nat),
      evalRule root p (CSharp.getCommentableNodesMatcher entityKinds withComments true) =
        evalRule root p (CSharp.getCommentableNodesMatcher entityKinds withComments false) ∧
      evalRule root p (CLang.getCommentableNodesMatcher entityKinds withComments true) =
        evalRule root p (CLang.getCommentableNodesMatcher entityKinds withComments false) :=
  ⟨rfl, rfl, fun _ _ => ⟨rfl, rfl⟩⟩

/-- Two rule objects sharing their leading fields, one ending in the
`withDocComment` fields and the other in their negation, are never both
satisfied at the same node. -/
theorem matcher_disjoint_helper (root : SgNode) (p : List Nat)
    (base wdc : List SgField) :
    (evalRule root p (SgRule.objL (base ++ wdc)) &&
      evalRule root p
        (SgRule.objL (base ++ [SgField.not (SgRule.objL wdc)]))) = false := by
  have h1 : evalField root p (SgField.not (SgRule.objL wdc)) =
      !(wdc.all (evalField root p)) := by
    simp [evalField]
  simp only [evalRule_objL, List.all_append, List.all_cons, List.all_nil, h1]
  cases base.all (evalField root p) <;>
    cases wdc.all (evalField root p) <;> rfl

/-- C9: for each embedded adapter, a node never satisfies both the
`withComments=true` and the `withComments=false` variant of the same query
shape — the two rules differ exactly in the doc-comment filter and its
negation, so no node is counted documented and undocumented at once. -/
theorem C9_documented_filter_disjoint (entityKinds : List EntityKind)
    (exportsOnly : Bool) (root : SgNode) (p : List Nat) :
    (evalRule root p (Go.getCommentableNodesMatcher entityKinds true exportsOnly) &&
      evalRule root p (Go.getCommentableNodesMatcher entityKinds false exportsOnly)) = false ∧
    (evalRule root p (CSharp.getCommentableNodesMatcher entityKinds true exportsOnly) &&
      evalRule root p (CSharp.getCommentableNodesMatcher entityKinds false exportsOnly)) = false ∧
    (evalRule root p (Python.getCommentableNodesMatcher entityKinds true) &&
      evalRule root p (Python.getCommentableNodesMatcher entityKinds false)) = false ∧
    (evalRule root p (Ruby.getCommentableNodesMatcher entityKinds true exportsOnly) &&
      evalRule root p (Ruby.getCommentableNodesMatcher entityKinds false exportsOnly)) = false ∧
    (evalRule root p (CLang.getCommentableNodesMatcher entityKinds true exportsOnly) &&
      evalRule root p (CLang.getCommentableNodesMatcher entityKinds false exportsOnly)) = false := by
  refine ⟨?_, ?_, ?_, ?_, ?_⟩
  · simp only [Go.getCommentableNodesMatcher]
    exact matcher_disjoint_helper root p _ Go.withDocComment
  · simp only [CSharp.getCommentableNodesMatcher]
    exact matcher_disjoint_helper root p _ CSharp.withDocComment
  · simp only [Python.getCommentableNodesMatcher]
    exact matcher_disjoint_helper root p _ Python.withDocstring
  · simp only [Ruby.getCommentableNodesMatcher]
    exact matcher_disjoint_helper root p _ Ruby.withDocComment
  · simp only [CLang.getCommentableNodesMatcher]
    exact matcher_disjoint_helper root p _ CLang.withDocComment

/-- C10: the Python matcher depends only on whether `function` and `type`
are among the requested entity kinds (there is no `exportsOnly` parameter
to depend on — the definition takes only the kind list and the
`withComments` flag); and when neither `function` nor `type` is requested,
the declaration-kind alternative list is empty, so the rule matches no node
at all. -/
theorem C10_python_matcher_dependencies :
    (∀ (ks1 ks2 : List EntityKind) (withComments : Bool),
      ks1.contains .function = ks2.contains .function →
      ks1.contains .type = ks2.contains .type →
      Python.getCommentableNodesMatcher ks1 withComments =
        Python.getCommentableNodesMatcher ks2 withComments) ∧
    (∀ (ks : List EntityKind) (withComments : Bool),
      ks.contains .function = false → ks.contains .type = false →
      ∀ (root : SgNode) (p : List Nat),
        evalRule root p (Python.getCommentableNodesMatcher ks withComments) = false) := by
  constructor
  · intro ks1 ks2 wc h1 h2
    simp only [Python.getCommentableNodesMatcher, h1, h2]
  · intro ks wc h1 h2 root p
    simp [Python.getCommentableNodesMatcher, h1, h2, SgField.anyL, evalField,
      SgRules.ofList, evalAny]

/-- Witness for `C10_python_matcher_dependencies`: two kind lists with the
same `{function, type}` intersection give the same rule, and a
`module`-only query evaluates to false at a concrete module node. -/
theorem C10_python_matcher_dependencies_witness :
    (([EntityKind.function, EntityKind.module].contains EntityKind.function =
        [EntityKind.function, EntityKind.property].contains EntityKind.function) ∧
      ([EntityKind.function, EntityKind.module].contains EntityKind.type =
        [EntityKind.function, EntityKind.property].contains EntityKind.type) ∧
      Python.getCommentableNodesMatcher [EntityKind.function, EntityKind.module] true =
        Python.getCommentableNodesMatcher [EntityKind.function, EntityKind.property] true) ∧
    (([EntityKind.module].contains EntityKind.function = false) ∧
      ([EntityKind.module].contains EntityKind.type = false) ∧
      evalRule (mkNode "module" "" []) []
        (Python.getCommentableNodesMatcher [EntityKind.module] false) = false) :=
  ⟨⟨by decide, by decide,
      C10_python_matcher_dependencies.1 [EntityKind.function, EntityKind.module]
        [EntityKind.function, EntityKind.property] true (by decide) (by decide)⟩,
    ⟨by decide, by decide,
      C10_python_matcher_dependencies.2 [EntityKind.module] false
        (by decide) (by decide) (mkNode "module" "" []) []⟩⟩

/-- A `kind` field holds exactly when the addressed node exists and has
that kind. -/
theorem evalField_kind_eq (root : SgNode) (p : List Nat) (k : String) :
    evalField root p (SgField.kind k) = true ↔
      ∃ n, nodeAt? root p = some n ∧ n.kind = k := by
  cases h : nodeAt? root p with
  | none => simp [evalField, h]
  | some n => simp [evalField, h]

/-- A `regex` field holds exactly when the addressed node exists and its
text passes the pattern test. -/
theorem evalField_regex_eq (root : SgNode) (p : List Nat) (pat : String) :
    evalField root p (SgField.regex pat) = true ↔
      ∃ n, nodeAt? root p = some n ∧ regexTest pat n.text = true := by
  cases h : nodeAt? root p with
  | none => simp [evalField, h]
  | some n => simp [evalField, h]

/-- An `inside` field holds exactly when the node has a parent satisfying
the sub-rule. -/
theorem evalField_inside_eq (root : SgNode) (p : List Nat) (r : SgRule) :
    evalField root p (SgField.inside r) = true ↔
      p ≠ [] ∧ evalRule root p.dropLast r = true := by
  by_cases hp : p = [] <;> simp [evalField, hp]

/-- A `follows` field holds exactly when the node has an immediate previous
sibling position satisfying the sub-rule. -/
theorem evalField_follows_eq (root : SgNode) (p : List Nat) (r : SgRule) :
    evalField root p (SgField.follows r) = true ↔
      ∃ q, prevPath? p = some q ∧ evalRule root q r = true := by
  cases h : prevPath? p with
  | none => simp [evalField, h]
  | some q => simp [evalField, h]

/-- A `has` field holds exactly when some direct child satisfies the
sub-rule. -/
theorem evalField_has_eq (root : SgNode) (p : List Nat) (r : SgRule) :
    evalField root p (SgField.has r) = true ↔
      ∃ n, nodeAt? root p = some n ∧
        ∃ i, i < n.childCount ∧ evalRule root (p ++ [i]) r = true := by
  cases h : nodeAt? root p with
  | none => simp [evalField, h]
  | some n => simp [evalField, h, List.any_eq_true, List.mem_range]

/-- An `anyL` field evaluates as the disjunction over its alternatives. -/
theorem evalField_anyL_eq (root : SgNode) (p : List Nat) (l : List SgRule) :
    evalField root p (SgField.anyL l) = l.any (evalRule root p) := by
  simp [SgField.anyL, evalField]

/-- Computing `hasInsideField` on an `objL` scans the field list. -/
theorem hasInsideField_objL (l : List SgField) :
    (SgRule.objL l).hasInsideField = l.any SgField.isInside := by
  simp only [SgRule.objL, SgRule.hasInsideField]
  induction l with
  | nil => rfl
  | cons f fs ih => simp [SgFields.ofList, SgRule.hasInsideField.go, ih]

/-- C5 counterexample: in the Python adapter a function defined inside
another function's body is matched by `getCommentableNodesMatcher` — the
node at path `[0,1,0]` of `pyNestedModule` is a `function_definition` whose
parent is the body `block` of the enclosing `function_definition` (a local
scope, not a module/class body), yet the matcher accepts it. -/
theorem C5_nested_declaration_matched_counterexample :
    evalRule pyNestedModule [0, 1, 0]
      (Python.getCommentableNodesMatcher [EntityKind.function] false) = true ∧
    (nodeAt? pyNestedModule [0, 1, 0]).map SgNode.kind = some "function_definition" ∧
    (nodeAt? pyNestedModule [0, 1]).map SgNode.kind = some "block" ∧
    (nodeAt? pyNestedModule [0]).map SgNode.kind = some "function_definition" :=
  ⟨by decide, by decide, by decide, by decide⟩

/-- C5 (amended): the scope constraints the adapters actually impose —
Python only requires the direct parent to be a `module` or any `block`
(which includes function bodies, so local declarations are matched); the
Ruby matcher carries no `inside` field, hence no scope constraint at all;
and the C# matcher's scope constraint, `inside {all: []}`, is satisfied at
every non-root node. -/
theorem C5_scope_constraints :
    (∀ (ks : List EntityKind) (wc : Bool) (root : SgNode) (p : List Nat),
      evalRule root p (Python.getCommentableNodesMatcher ks wc) = true →
      ∃ par, nodeAt? root p.dropLast = some par ∧
        (par.kind = "module" ∨ par.kind = "block")) ∧
    (∀ (ks : List EntityKind) (wc eo : Bool),
      (Ruby.getCommentableNodesMatcher ks wc eo).hasInsideField = false) ∧
    (∀ (root : SgNode) (p : List Nat), p ≠ [] →
      evalField root p (SgField.inside (SgRule.objL [SgField.allL []])) = true) := by
  refine ⟨?_, ?_, ?_⟩
  · intro ks wc root p h
    simp only [Python.getCommentableNodesMatcher, evalRule_objL, List.all_append,
      List.all_cons, List.all_nil, Bool.and_eq_true, Bool.and_true] at h
    obtain ⟨⟨-, hin⟩, -⟩ := h
    rw [evalField_inside_eq] at hin
    obtain ⟨hp, hev⟩ := hin
    simp only [evalRule_objL, List.all_cons, List.all_nil, Bool.and_eq_true,
      Bool.and_true, evalField_anyL_eq, List.any_cons, List.any_nil,
      Bool.or_eq_true, Bool.or_false] at hev
    rcases hev with hm | hb
    · simp only [evalRule_objL, List.all_cons, List.all_nil, Bool.and_eq_true,
        Bool.and_true, evalField_kind_eq] at hm
      obtain ⟨n, hn, hk⟩ := hm
      exact ⟨n, hn, Or.inl hk⟩
    · simp only [evalRule_objL, List.all_cons, List.all_nil, Bool.and_eq_true,
        Bool.and_true, evalField_kind_eq] at hb
      obtain ⟨n, hn, hk⟩ := hb
      exact ⟨n, hn, Or.inr hk⟩
  · intro ks wc eo
    cases wc <;>
      simp [Ruby.getCommentableNodesMatcher, hasInsideField_objL,
        SgField.isInside, SgField.anyL, Ruby.withDocComment]
  · intro root p hp
    simp [evalField, hp, SgField.allL, SgRules.ofList, evalAll]

/-- Witness for `C5_scope_constraints`: the nested Python function of
`pyNestedModule` (whose parent scope is a `block`), and a concrete non-root
C# node passing the vacuous `inside {all: []}` constraint. -/
theorem C5_scope_constraints_witness :
    (evalRule pyNestedModule [0, 1, 0]
        (Python.getCommentableNodesMatcher [EntityKind.function] false) = true ∧
      ∃ par, nodeAt? pyNestedModule [0, 1] = some par ∧
        (par.kind = "module" ∨ par.kind = "block")) ∧
    (([2] : List Nat) ≠ [] ∧
      evalField csDocFile [2] (SgField.inside (SgRule.objL [SgField.allL []])) = true) :=
  ⟨⟨by decide,
      C5_scope_constraints.1 [EntityKind.function] false pyNestedModule [0, 1, 0]
        (by decide)⟩,
    ⟨by decide, C5_scope_constraints.2.2 csDocFile [2] (by decide)⟩⟩

/-- The pattern `"^[A-Z]"` tests the first character for upper case. -/
theorem regexTest_capital (s : String) :
    regexTest "^[A-Z]" s =
      (match s.data with
        | c :: _ => c.isUpper
        | [] => false) := rfl

/-- The pattern `"^//"` tests for the literal prefix `//`. -/
theorem regexTest_caret_slashes (s : String) :
    regexTest "^//" s = jsStartsWith s "//" := rfl

/-- C6 counterexample: in the Go adapter an exported (capitalized) function
is matched even with `exportsOnly=false`, so a matched node's exported
state does not always equal the flag; and with `exportsOnly=true` a
capitalized method declaration is not matched at all — its name is a
`field_identifier`, not a direct `identifier` child, so the
`has {kind: identifier, regex: "^[A-Z]"}` filter fails. -/
theorem C6_go_exported_state_counterexample :
    evalRule goExportedFile [0]
      (Go.getCommentableNodesMatcher [EntityKind.function] false false) = true ∧
    regexTest "^[A-Z]" "Foo" = true ∧
    evalRule goMethodFile [0]
      (Go.getCommentableNodesMatcher [EntityKind.function] false true) = false ∧
    (nodeAt? goMethodFile [0]).map SgNode.kind = some "method_declaration" ∧
    (nodeAt? goMethodFile [0, 1]).map SgNode.text = some "Foo" :=
  ⟨by decide, by decide, by decide, by decide, by decide⟩

/-- C6 (amended): with `exportsOnly=true` the Go matcher accepts a node
only if it has a direct child of kind `identifier` whose text begins with
a capital letter (so matched top-level functions are exported, while
declaration kinds whose name node is not a direct `identifier` child are
never matched); and every node matched with `exportsOnly=true` is also
matched with `exportsOnly=false` — with the flag off, capitalization is
not constrained. -/
theorem C6_go_exportsOnly_matching (ks : List EntityKind) (wc : Bool)
    (root : SgNode) (p : List Nat)
    (h : evalRule root p (Go.getCommentableNodesMatcher ks wc true) = true) :
    (∃ n, nodeAt? root p = some n ∧
      ∃ i, i < n.childCount ∧
        ∃ c, nodeAt? root (p ++ [i]) = some c ∧ c.kind = "identifier" ∧
          regexTest "^[A-Z]" c.text = true) ∧
    evalRule root p (Go.getCommentableNodesMatcher ks wc false) = true := by
  have hmt : Go.getCommentableNodesMatcher ks wc true =
      SgRule.objL (([SgField.anyL [SgRule.objL
          [SgField.anyL (Go.declKindsRawAny ks),
           SgField.has (SgRule.objL
             [SgField.kind "identifier", SgField.regex "^[A-Z]"])]]] ++
        [SgField.inside (SgRule.objL [SgField.kind "source_file"])]) ++
        (if wc then Go.withDocComment
          else [SgField.not (SgRule.objL Go.withDocComment)])) := rfl
  have hmf : Go.getCommentableNodesMatcher ks wc false =
      SgRule.objL (([SgField.anyL [SgRule.objL
          [SgField.anyL (Go.declKindsRawAny ks)]]] ++
        [SgField.inside (SgRule.objL [SgField.kind "source_file"])]) ++
        (if wc then Go.withDocComment
          else [SgField.not (SgRule.objL Go.withDocComment)])) := rfl
  rw [hmt] at h
  rw [hmf]
  simp only [evalRule_objL, List.all_append, List.all_cons, List.all_nil,
    Bool.and_eq_true, Bool.and_true, evalField_anyL_eq, List.any_cons,
    List.any_nil, Bool.or_eq_true, Bool.or_false] at h ⊢
  obtain ⟨⟨⟨hraw, hhas⟩, hin⟩, hdocs⟩ := h
  rw [evalField_has_eq] at hhas
  obtain ⟨n, hn, i, hi, hc⟩ := hhas
  simp only [evalRule_objL, List.all_cons, List.all_nil, Bool.and_eq_true,
    Bool.and_true, evalField_kind_eq, evalField_regex_eq] at hc
  obtain ⟨⟨c, hc1, hc2⟩, ⟨c2, hc3, hc4⟩⟩ := hc
  rw [hc1] at hc3
  injection hc3 with hc3
  subst hc3
  exact ⟨⟨n, hn, i, hi, c, hc1, hc2, hc4⟩, ⟨hraw, hin⟩, hdocs⟩

/-- Witness for `C6_go_exportsOnly_matching`: the exported function file,
matched with `exportsOnly=true`. -/
theorem C6_go_exportsOnly_matching_witness :
    (evalRule goExportedFile [0]
        (Go.getCommentableNodesMatcher [EntityKind.function] false true) = true) ∧
    ((∃ n, nodeAt? goExportedFile [0] = some n ∧
        ∃ i, i < n.childCount ∧
          ∃ c, nodeAt? goExportedFile ([0] ++ [i]) = some c ∧
            c.kind = "identifier" ∧ regexTest "^[A-Z]" c.text = true) ∧
      evalRule goExportedFile [0]
        (Go.getCommentableNodesMatcher [EntityKind.function] false false) = true) :=
  ⟨by decide,
    C6_go_exportsOnly_matching [EntityKind.function] false goExportedFile [0]
      (by decide)⟩

/-- Structure of the `push`-style walk: it returns, nearest first, a
contiguous ascending run `[k, i)` of sibling positions whose nodes all pass
`ok`, bounded below either by position 0 or by a sibling that fails. -/
theorem collectPrevPush_spec (root : SgNode) (q : List Nat) (ok : SgNode → Bool) :
    ∀ i, ∃ k, k ≤ i ∧
      collectPrevPush root q ok i =
        ((List.range' k (i - k)).map (fun m => q ++ [m])).reverse ∧
      (∀ m, k ≤ m → m < i →
        ∃ n, nodeAt? root (q ++ [m]) = some n ∧ ok n = true) ∧
      (k = 0 ∨ ¬∃ n, nodeAt? root (q ++ [k - 1]) = some n ∧ ok n = true) := by
  intro i
  induction i with
  | zero =>
    exact ⟨0, Nat.le_refl 0, by simp [collectPrevPush],
      fun m h1 h2 => absurd h2 (by omega), Or.inl rfl⟩
  | succ i ih =>
    cases hn : nodeAt? root (q ++ [i]) with
    | none =>
      refine ⟨i + 1, Nat.le_refl _, ?_, fun m h1 h2 => absurd h1 (by omega), ?_⟩
      · simp [collectPrevPush, hn, Nat.sub_self]
      · right
        rintro ⟨n, hn2, -⟩
        simp only [Nat.add_sub_cancel] at hn2
        rw [hn] at hn2
        exact Option.noConfusion hn2
    | some n =>
      cases hok : ok n with
      | false =>
        refine ⟨i + 1, Nat.le_refl _, ?_, fun m h1 h2 => absurd h1 (by omega), ?_⟩
        · simp [collectPrevPush, hn, hok, Nat.sub_self]
        · right
          rintro ⟨n2, hn2, hok2⟩
          simp only [Nat.add_sub_cancel] at hn2
          rw [hn] at hn2
          injection hn2 with hn2
          subst hn2
          rw [hok] at hok2
          exact Bool.noConfusion hok2
      | true =>
        obtain ⟨k, hk, hcoll, hall, hbound⟩ := ih
        refine ⟨k, Nat.le_succ_of_le hk, ?_, ?_, hbound⟩
        · have hm : i + 1 - k = (i - k) + 1 := by omega
          have hrange : List.range' k (i + 1 - k) =
              List.range' k (i - k) ++ [i] := by
            rw [hm, List.range'_1_concat,
              show k + (i - k) = i from by omega]
          simp [collectPrevPush, hn, hok, hcoll, hrange]
        · intro m h1 h2
          by_cases hm : m < i
          · exact hall m h1 hm
          · have : m = i := by omega
            subst this
            exact ⟨n, hn, hok⟩

/-- The `unshift`-style walk is the reverse of the `push`-style walk,
prepended to the accumulator. -/
theorem collectPrevUnshift_eq (root : SgNode) (q : List Nat) (ok : SgNode → Bool) :
    ∀ (i : Nat) (acc : List (List Nat)),
      collectPrevUnshift root q ok i acc =
        (collectPrevPush root q ok i).reverse ++ acc := by
  intro i
  induction i with
  | zero => intro acc; simp [collectPrevUnshift, collectPrevPush]
  | succ i ih =>
    intro acc
    cases hn : nodeAt? root (q ++ [i]) with
    | none => simp [collectPrevUnshift, collectPrevPush, hn]
    | some n =>
      cases hok : ok n with
      | false => simp [collectPrevUnshift, collectPrevPush, hn, hok]
      | true => simp [collectPrevUnshift, collectPrevPush, hn, hok, ih]

/-- Structure of the `unshift`-style walk started with an empty
accumulator: the same contiguous ascending run, in source order. -/
theorem collectPrevUnshift_spec (root : SgNode) (q : List Nat)
    (ok : SgNode → Bool) (i : Nat) :
    ∃ k, k ≤ i ∧
      collectPrevUnshift root q ok i [] =
        (List.range' k (i - k)).map (fun m => q ++ [m]) ∧
      (∀ m, k ≤ m → m < i →
        ∃ n, nodeAt? root (q ++ [m]) = some n ∧ ok n = true) ∧
      (k = 0 ∨ ¬∃ n, nodeAt? root (q ++ [k - 1]) = some n ∧ ok n = true) := by
  obtain ⟨k, hk, hc, ha, hb⟩ := collectPrevPush_spec root q ok i
  exact ⟨k, hk,
    by rw [collectPrevUnshift_eq, hc, List.reverse_reverse, List.append_nil],
    ha, hb⟩

/-- The last element of an ascending sibling run `[k, j)` is the position
`j - 1` immediately before `j`. -/
theorem run_getLast (q : List Nat) (k j : Nat) (h : k < j) :
    ((List.range' k (j - k)).map (fun m => q ++ [m])).getLast? =
      some (q ++ [j - 1]) := by
  have h1 : j - k = (j - k - 1) + 1 := by omega
  rw [h1, List.range'_1_concat, List.map_append]
  simp [List.getLast?_concat, show k + (j - k - 1) = j - 1 from by omega]

/-- Characterization of `prevPath?`. -/
theorem prevPath?_eq_some (p q : List Nat) :
    prevPath? p = some q ↔
      ∃ i, p.getLast? = some (i + 1) ∧ q = p.dropLast ++ [i] := by
  unfold prevPath?
  cases hp : p.getLast? with
  | none => simp
  | some j =>
    cases j with
    | zero => simp
    | succ i =>
      constructor
      · intro h
        injection h with h
        exact ⟨i, rfl, h.symm⟩
      · rintro ⟨i2, hi2, hq⟩
        injection hi2 with hi2
        rw [hq, Nat.succ_inj.mp hi2]

/-- Structure of the Go comment-span walk when it returns a span. -/
theorem goGetCommentNodes_spec (root : SgNode) (p : List Nat)
    (l : List (List Nat)) (h : Go.getCommentNodes root p = some l) :
    ∃ j k, p.getLast? = some j ∧ k < j ∧
      l = (List.range' k (j - k)).map (fun m => p.dropLast ++ [m]) ∧
      (∀ m, k ≤ m → m < j →
        ∃ n, nodeAt? root (p.dropLast ++ [m]) = some n ∧ Go.commentOk n = true) ∧
      l ≠ [] ∧ l.getLast? = some (p.dropLast ++ [j - 1]) := by
  cases hp : p.getLast? with
  | none => simp [Go.getCommentNodes, hp] at h
  | some j =>
    simp only [Go.getCommentNodes, hp] at h
    obtain ⟨k, hk, hc, ha, -⟩ :=
      collectPrevUnshift_spec root p.dropLast Go.commentOk j
    rw [hc] at h
    cases he : ((List.range' k (j - k)).map
        (fun m => p.dropLast ++ [m])).isEmpty with
    | true => rw [if_pos he] at h; exact Option.noConfusion h
    | false =>
      rw [if_neg (by simp [he])] at h
      injection h with h
      subst h
      have hkj : k < j := by
        rcases Nat.lt_or_ge k j with h1 | h1
        · exact h1
        · exfalso
          have : j - k = 0 := by omega
          rw [this] at he
          simp [List.isEmpty] at he
      exact ⟨j, k, rfl, hkj, rfl, ha,
        by simp [List.range'_eq_nil]; omega,
        run_getLast p.dropLast k j hkj⟩

/-- A `stopBy` annotation field always holds (all the adapters' relational
rules use the neighbor adjacency the evaluator implements). -/
theorem evalField_stopBy (root : SgNode) (p : List Nat) (s : String) :
    evalField root p (SgField.stopBy s) = true := rfl

/-- C7 counterexample: the C# adapter's `getCommentNodes` collects the two
comments preceding the class of `csDocFile` with `push`, returning them
nearest-first — `[[1], [0]]` — not ordered by source position
(earliest-first would be `[[0], [1]]`). -/
theorem C7_csharp_order_counterexample :
    CSharp.getCommentNodes csDocFile [2] = [[1], [0]] ∧
    ([[1], [0]] : List (List Nat)) ≠ [[0], [1]] :=
  ⟨by decide, by decide⟩

/-- C7 (amended): both walkers return a strictly contiguous run `[k, j)` of
sibling comment positions immediately preceding the declaration at position
`j`; the Go adapter returns it in source order (earliest first, the last
element being the immediate previous sibling), while the C# adapter returns
the reverse (nearest comment first, the immediate previous sibling at the
head). -/
theorem C7_comment_run_structure :
    (∀ (root : SgNode) (p : List Nat) (l : List (List Nat)),
      Go.getCommentNodes root p = some l →
      ∃ j k, p.getLast? = some j ∧ k < j ∧
        l = (List.range' k (j - k)).map (fun m => p.dropLast ++ [m]) ∧
        (∀ m, k ≤ m → m < j →
          ∃ n, nodeAt? root (p.dropLast ++ [m]) = some n ∧ Go.commentOk n = true) ∧
        l ≠ [] ∧ l.getLast? = some (p.dropLast ++ [j - 1])) ∧
    (∀ (root : SgNode) (p : List Nat) (j : Nat),
      p.getLast? = some j →
      CSharp.getCommentNodes root p ≠ [] →
      ∃ k, k < j ∧
        CSharp.getCommentNodes root p =
          ((List.range' k (j - k)).map (fun m => p.dropLast ++ [m])).reverse ∧
        (∀ m, k ≤ m → m < j →
          ∃ n, nodeAt? root (p.dropLast ++ [m]) = some n ∧
            CSharp.commentOk n = true) ∧
        (CSharp.getCommentNodes root p).head? = some (p.dropLast ++ [j - 1])) := by
  constructor
  · exact goGetCommentNodes_spec
  · intro root p j hp hne
    simp only [CSharp.getCommentNodes, hp] at hne ⊢
    obtain ⟨k, hk, hc, ha, -⟩ :=
      collectPrevPush_spec root p.dropLast CSharp.commentOk j
    rw [hc] at hne ⊢
    have hkj : k < j := by
      rcases Nat.lt_or_ge k j with h1 | h1
      · exact h1
      · exfalso
        apply hne
        rw [show j - k = 0 from by omega]
        simp
    refine ⟨k, hkj, rfl, ha, ?_⟩
    rw [List.head?_reverse]
    exact run_getLast p.dropLast k j hkj

/-- Witness for `C7_comment_run_structure`: the doubly-commented Go
function of `goDocFile` and the doubly-commented C# class of `csDocFile`. -/
theorem C7_comment_run_structure_witness :
    (Go.getCommentNodes goDocFile [2] = some [[0], [1]] ∧
      (∃ j k, ([2] : List Nat).getLast? = some j ∧ k < j ∧
        [[0], [1]] = (List.range' k (j - k)).map
          (fun m => ([2] : List Nat).dropLast ++ [m]) ∧
        (∀ m, k ≤ m → m < j →
          ∃ n, nodeAt? goDocFile (([2] : List Nat).dropLast ++ [m]) = some n ∧
            Go.commentOk n = true) ∧
        ([[0], [1]] : List (List Nat)) ≠ [] ∧
        ([[0], [1]] : List (List Nat)).getLast? =
          some (([2] : List Nat).dropLast ++ [j - 1]))) ∧
    (([2] : List Nat).getLast? = some 2 ∧
      CSharp.getCommentNodes csDocFile [2] ≠ [] ∧
      (∃ k, k < 2 ∧
        CSharp.getCommentNodes csDocFile [2] =
          ((List.range' k (2 - k)).map
            (fun m => ([2] : List Nat).dropLast ++ [m])).reverse ∧
        (∀ m, k ≤ m → m < 2 →
          ∃ n, nodeAt? csDocFile (([2] : List Nat).dropLast ++ [m]) = some n ∧
            CSharp.commentOk n = true) ∧
        (CSharp.getCommentNodes csDocFile [2]).head? =
          some (([2] : List Nat).dropLast ++ [1]))) :=
  ⟨⟨by decide, C7_comment_run_structure.1 goDocFile [2] [[0], [1]] (by decide)⟩,
    ⟨by decide, by decide,
      C7_comment_run_structure.2 csDocFile [2] 2 (by decide) (by decide)⟩⟩

/-- C3 counterexample: for the documented Python function of `pyDocModule`
(matched with `withComments=true`), `getCommentNodes` returns a single
node — but that node is the docstring `string` at path `[2,0,0]`, not the
body's first statement (the `expression_statement` at path `[2,0]`), so the
span's last node is not "the first statement inside the declaration's
body". -/
theorem C3_python_span_counterexample :
    evalRule pyDocModule [0]
      (Python.getCommentableNodesMatcher [EntityKind.function] true) = true ∧
    Python.getCommentNodes pyDocFunction = some [[2, 0, 0]] ∧
    (nodeAt? pyDocFunction [2, 0, 0]).map SgNode.kind = some "string" ∧
    (nodeAt? pyDocFunction [2, 0]).map SgNode.kind = some "expression_statement" ∧
    ([[2, 0, 0]] : List (List Nat)).getLast? ≠ some [2, 0] :=
  ⟨by decide, by decide, by decide, by decide, by decide⟩

/-- C3 (amended): for every Go declaration matched with
`withComments=true`, `getCommentNodes` returns a non-empty span whose last
node is the declaration's immediate previous sibling; and for a Python
declaration matched with `withComments=true` whose first `block` descendant
is the direct-child body (as in the real grammar), with that body's first
statement an expression statement wrapping a string, `getCommentNodes`
returns exactly the docstring string node — the first child of the body's
first statement. -/
theorem C3_comment_span_adjacent :
    (∀ (ks : List EntityKind) (eo : Bool) (root : SgNode) (p : List Nat),
      evalRule root p (Go.getCommentableNodesMatcher ks true eo) = true →
      ∃ l, Go.getCommentNodes root p = some l ∧ l ≠ [] ∧
        l.getLast? = prevPath? p) ∧
    (∀ (root : SgNode) (p : List Nat) (ks : List EntityKind)
        (decl body stmt s : SgNode) (i : Nat) (rest srest : SgNodes),
      nodeAt? root p = some decl →
      evalRule root p (Python.getCommentableNodesMatcher ks true) = true →
      findNode "block" decl = some ([i], body) →
      body.children = SgNodes.cons stmt rest →
      stmt.kind = "expression_statement" →
      stmt.children = SgNodes.cons s srest →
      s.kind = "string" →
      Python.getCommentNodes decl = some [[i, 0, 0]]) := by
  constructor
  · intro ks eo root p h
    have hmt : Go.getCommentableNodesMatcher ks true eo =
        SgRule.objL (((if eo then
            [SgField.anyL [SgRule.objL
              [SgField.anyL (Go.declKindsRawAny ks),
               SgField.has (SgRule.objL
                 [SgField.kind "identifier", SgField.regex "^[A-Z]"])]]]
          else [SgField.anyL [SgRule.objL
              [SgField.anyL (Go.declKindsRawAny ks)]]]) ++
          [SgField.inside (SgRule.objL [SgField.kind "source_file"])]) ++
          Go.withDocComment) := rfl
    rw [hmt] at h
    simp only [evalRule_objL, List.all_append, List.all_cons, List.all_nil,
      Bool.and_eq_true, Bool.and_true, Go.withDocComment] at h
    obtain ⟨-, hdocs⟩ := h
    rw [evalField_follows_eq] at hdocs
    obtain ⟨q, hq, hr⟩ := hdocs
    simp only [evalRule_objL, List.all_cons, List.all_nil, Bool.and_eq_true,
      Bool.and_true, evalField_kind_eq, evalField_regex_eq,
      evalField_stopBy] at hr
    obtain ⟨⟨n, hn1, hkind⟩, n2, hn2, hreg⟩ := hr
    rw [hn1] at hn2
    injection hn2 with hn2
    subst hn2
    rw [regexTest_caret_slashes] at hreg
    have hok : Go.commentOk n = true := by
      simp [Go.commentOk, hkind, hreg]
    obtain ⟨j, hpl, hqeq⟩ := (prevPath?_eq_some p q).mp hq
    subst hqeq
    obtain ⟨k, hk, hc, ha, hb⟩ :=
      collectPrevUnshift_spec root p.dropLast Go.commentOk (j + 1)
    have hkj : k ≤ j := by
      rcases Nat.lt_or_ge j k with h1 | h1
      · exfalso
        have hkj1 : k = j + 1 := by omega
        rcases hb with hb0 | hb1
        · omega
        · exact hb1 ⟨n, by rw [hkj1, Nat.add_sub_cancel]; exact hn1, hok⟩
      · exact h1
    have hne : (List.range' k (j + 1 - k)).map
        (fun m => p.dropLast ++ [m]) ≠ [] := by
      simp only [ne_eq, List.map_eq_nil_iff, List.range'_eq_nil]
      omega
    refine ⟨(List.range' k (j + 1 - k)).map (fun m => p.dropLast ++ [m]),
      ?_, hne, ?_⟩
    · simp only [Go.getCommentNodes, hpl, hc]
      rw [if_neg (by simp [hne])]
    · rw [run_getLast p.dropLast k (j + 1) (by omega)]
      simp [prevPath?, hpl]
  · intro root p ks decl body stmt s i rest srest h1 h2 hfind hbody hstmt
      hschild hskind
    cases body with
    | node bk bt bcs =>
      simp only [SgNode.children] at hbody
      subst hbody
      cases stmt with
      | node sk st scs =>
        simp only [SgNode.kind] at hstmt
        simp only [SgNode.children] at hschild
        subst hstmt
        subst hschild
        simp only [Python.getCommentNodes, hfind, findNode, findNodes,
          SgNode.kind, hskind]
        simp [findNode, findNodes, hskind]

/-- Witness for `C3_comment_span_adjacent`: the doubly-commented Go
function of `goDocFile` and the documented Python function of
`pyDocModule`. -/
theorem C3_comment_span_adjacent_witness :
    (evalRule goDocFile [2]
        (Go.getCommentableNodesMatcher [EntityKind.function] true false) = true ∧
      (∃ l, Go.getCommentNodes goDocFile [2] = some l ∧ l ≠ [] ∧
        l.getLast? = prevPath? [2])) ∧
    (nodeAt? pyDocModule [0] = some pyDocFunction ∧
      evalRule pyDocModule [0]
        (Python.getCommentableNodesMatcher [EntityKind.function] true) = true ∧
      findNode "block" pyDocFunction = some ([2], pyDocBody) ∧
      pyDocBody.children = SgNodes.cons pyDocStmt
        (SgNodes.cons (mkNode "pass_statement" "pass" []) SgNodes.nil) ∧
      pyDocStmt.kind = "expression_statement" ∧
      pyDocStmt.children = SgNodes.cons pyDocString SgNodes.nil ∧
      pyDocString.kind = "string" ∧
      Python.getCommentNodes pyDocFunction = some [[2, 0, 0]]) :=
  ⟨⟨by decide,
      C3_comment_span_adjacent.1 [EntityKind.function] false goDocFile [2]
        (by decide)⟩,
    ⟨rfl, by decide, rfl, rfl, rfl, rfl, rfl,
      C3_comment_span_adjacent.2 pyDocModule [0] [EntityKind.function]
        pyDocFunction pyDocBody pyDocStmt pyDocString 2
        (SgNodes.cons (mkNode "pass_statement" "pass" []) SgNodes.nil)
        SgNodes.nil rfl (by decide) rfl rfl rfl rfl rfl⟩⟩
